import Mathlib

/-
Verification development for the core of a small RISC-V operating-system kernel
(trap dispatch, syscall layer, virtual memory, threads and locks, unified I/O
endpoints, the VirtIO block driver and the KTFS filesystem).

Each definition below is a shallow embedding of a function from the kernel
sources (file and function named in its comment).  Machine integers are
modelled as Nat or Int; fallible C functions that return a negative error code
are modelled as Int-valued functions or with an explicit outcome type; blocking
operations (condition_wait) are modelled as an explicit blocked outcome.
-/
set_option maxRecDepth 10000

-- ERROR CODES (error.h)
def EINVAL : Int := 1

def EBUSY : Int := 2

def ENOTSUP : Int := 3

def EBADFD : Int := 9

def EMFILE : Int := 10

def EMTHR : Int := 12

def ENOMEM : Int := 14

def EPIPE : Int := 15

def EACCESS : Int := 8

-- TRAP LAYER AND SYSCALL DISPATCH (excp.c, syscall.c) ------------------------
/-- Trap frame (trap.h): the argument registers a0..a7 are C long (signed);
sepc is the saved user program counter.  Only the fields the syscall path
touches are modelled. -/
structure trap_frame where
  a0 : Int
  a1 : Int
  a2 : Int
  a7 : Int
  sepc : Nat
deriving DecidableEq

/-- Environment of the syscall switch in syscall.c: each handler is modelled by
its return value as a function of the register arguments the dispatcher passes
through.  (sysexit and sysexec do not return on success in the C code; their
slots model the value that would be placed in a0 when they do return.) -/
structure syscall_env where
  sysexit : Int
  sysexec : Int → Int → Int → Int
  sysfork : Int
  syswait : Int → Int
  sysprint : Int → Int
  sysusleep : Int → Int
  sysdevopen : Int → Int → Int → Int
  sysfsopen : Int → Int → Int
  sysfscreate : Int → Int
  sysfsdelete : Int → Int
  sysclose : Int → Int
  sysread : Int → Int → Int → Int
  syswrite : Int → Int → Int → Int
  sysioctl : Int → Int → Int → Int
  syspipe : Int → Int → Int
  sysiodup : Int → Int → Int

/-- syscall() from syscall.c: dispatch on the syscall number in a7
(scnum.h numbering), passing a0..a2 through; unknown numbers yield -ENOTSUP. -/
def syscall_dispatch (env : syscall_env) (tfr : trap_frame) : Int :=
  if tfr.a7 = 0 then env.sysexit
  else if tfr.a7 = 1 then env.sysexec tfr.a0 tfr.a1 tfr.a2
  else if tfr.a7 = 2 then env.sysfork
  else if tfr.a7 = 3 then env.syswait tfr.a0
  else if tfr.a7 = 4 then env.sysprint tfr.a0
  else if tfr.a7 = 5 then env.sysusleep tfr.a0
  else if tfr.a7 = 10 then env.sysdevopen tfr.a0 tfr.a1 tfr.a2
  else if tfr.a7 = 11 then env.sysfsopen tfr.a0 tfr.a1
  else if tfr.a7 = 12 then env.sysfscreate tfr.a0
  else if tfr.a7 = 13 then env.sysfsdelete tfr.a0
  else if tfr.a7 = 16 then env.sysclose tfr.a0
  else if tfr.a7 = 17 then env.sysread tfr.a0 tfr.a1 tfr.a2
  else if tfr.a7 = 18 then env.syswrite tfr.a0 tfr.a1 tfr.a2
  else if tfr.a7 = 19 then env.sysioctl tfr.a0 tfr.a1 tfr.a2
  else if tfr.a7 = 20 then env.syspipe tfr.a0 tfr.a1
  else if tfr.a7 = 21 then env.sysiodup tfr.a0 tfr.a1
  else -ENOTSUP

/-- handle_syscall() from syscall.c: advance the saved pc by 4 and place the
dispatcher result in a0. -/
def handle_syscall (dispatch : trap_frame → Int) (tfr : trap_frame) : trap_frame :=
  { tfr with sepc := tfr.sepc + 4, a0 := dispatch tfr }

/-- Outcome of a user-mode exception: the process resumes with an updated trap
frame, or is terminated via process_exit. -/
inductive umode_outcome where
  | resume (tfr : trap_frame)
  | exited (tfr : trap_frame)
deriving DecidableEq

/-- The RISCV_SCAUSE_ECALL_FROM_UMODE branch of handle_umode_exception
(excp.c): run handle_syscall, then, if the value left in a0 is negative, call
process_exit; otherwise return to user mode. -/
def handle_umode_ecall (dispatch : trap_frame → Int) (tfr : trap_frame) : umode_outcome :=
  let t := handle_syscall dispatch tfr
  if t.a0 < 0 then umode_outcome.exited t else umode_outcome.resume t

/-- Concrete syscall environment in which every handler reports success. -/
def env_ok : syscall_env where
  sysexit := 0
  sysexec := fun _ _ _ => 0
  sysfork := 0
  syswait := fun _ => 0
  sysprint := fun _ => 0
  sysusleep := fun _ => 0
  sysdevopen := fun _ _ _ => 0
  sysfsopen := fun _ _ => 0
  sysfscreate := fun _ => 0
  sysfsdelete := fun _ => 0
  sysclose := fun _ => 0
  sysread := fun _ _ _ => 0
  syswrite := fun _ _ _ => 0
  sysioctl := fun _ _ _ => 0
  syspipe := fun _ _ => 0
  sysiodup := fun _ _ => 0

/-- Trap frame of a user ecall with an unknown syscall number (a7 = 99). -/
def tfr_badnum : trap_frame := { a0 := 0, a1 := 0, a2 := 0, a7 := 99, sepc := 0x1000 }

-- MEMORY-BUFFER ENDPOINT (io.c: struct memio, memio_readat, memio_cntl) ------
/-- Memory-buffer endpoint (io.c struct memio): a fixed byte buffer and the
current endpoint size.  create_memory_io initializes size to the buffer
length; SETEND may later shrink size. -/
structure memio where
  buf : List Nat
  size : Nat
deriving DecidableEq

/-- memio_readat() from io.c: error -EINVAL when pos is at or past size or the
buffer size is negative; otherwise truncate the request to the bytes available
and return the truncated count together with the bytes copied out. -/
def memio_readat (mio : memio) (pos : Nat) (bufsz : Int) : Int × List Nat :=
  if mio.size ≤ pos ∨ bufsz < 0 then (-EINVAL, [])
  else
    let n := if mio.size < pos + bufsz.toNat then mio.size - pos else bufsz.toNat
    ((n : Int), (mio.buf.drop pos).take n)

/-- memio_writeat() from io.c: same validation and truncation as memio_readat;
returns the truncated count and the updated buffer contents. -/
def memio_writeat (mio : memio) (pos : Nat) (data : List Nat) : Int × memio :=
  if mio.size ≤ pos ∨ False then (-EINVAL, mio)
  else
    let n := if mio.size < pos + data.length then mio.size - pos else data.length
    ((n : Int),
     { mio with buf := mio.buf.take pos ++ data.take n ++ mio.buf.drop (pos + n) })

/-- IOCTL_SETEND case of memio_cntl() from io.c: the new end must not exceed
the current size (shrink only), otherwise -EINVAL. -/
def memio_setend (mio : memio) (new_end : Nat) : Int × memio :=
  if mio.size < new_end then (-EINVAL, mio)
  else (0, { mio with size := new_end })

/-- IOCTL_GETEND case of memio_cntl() from io.c. -/
def memio_getend (mio : memio) : Nat := mio.size

/-- Concrete memory endpoint of size 4 used for boundary checks. -/
def mio4 : memio := { buf := [10, 11, 12, 13], size := 4 }

-- PIPE ENDPOINT (io.c: struct pipe, pipe_read, pipe_write) -------------------
/-- PIPE_BUFSZ = PAGE_SIZE (io.c): the pipe ring buffer is one 4096-byte page. -/
def PIPE_BUFSZ : Nat := 4096

/-- Pipe shared state (io.c struct pipe): single-page ring buffer, head/tail
indices, and the two closed flags.  The condition variables readable/writable
are modelled by the explicit blocked outcomes of the read/write loops. -/
structure pipe_state where
  buf : Nat → Nat
  head : Nat
  tail : Nat
  closed_read : Bool
  closed_write : Bool

/-- Result of pipe_read: the loop completes with a byte count (EOF when the
count is 0), or blocks in condition_wait(readable) with some bytes already
read. -/
inductive pipe_read_result where
  | done (total : Nat) (bytes : List Nat) (p : pipe_state)
  | blocked (total : Nat) (p : pipe_state)

/-- pipe_read() from io.c, single-threaded semantics: while bytes remain to
read, an empty ring with writer closed returns the bytes read so far, an empty
ring with the writer open blocks on the readable condition, and otherwise one
byte is consumed from the tail. -/
def pipe_read_loop (p : pipe_state) (len total : Nat) (acc : List Nat) : pipe_read_result :=
  match len with
  | 0 => pipe_read_result.done total acc.reverse p
  | Nat.succ k =>
    if p.head = p.tail then
      if p.closed_write then pipe_read_result.done total acc.reverse p
      else pipe_read_result.blocked total p
    else
      pipe_read_loop
        { p with tail := (p.tail + 1) % PIPE_BUFSZ }
        k (total + 1) (p.buf p.tail :: acc)

def pipe_read (p : pipe_state) (len : Nat) : pipe_read_result :=
  pipe_read_loop p len 0 []

/-- Result of pipe_write: the loop completes with a byte count, returns -EPIPE
on a full ring with the reader closed, or blocks in condition_wait(writable)
with some bytes already buffered. -/
inductive pipe_write_result where
  | done (total : Nat) (p : pipe_state)
  | epipe (p : pipe_state)
  | blocked (total : Nat) (p : pipe_state)

def pipe_write_result.isDone : pipe_write_result → Bool
  | pipe_write_result.done _ _ => true
  | _ => false

def pipe_write_result.isEpipe : pipe_write_result → Bool
  | pipe_write_result.epipe _ => true
  | _ => false

def pipe_write_result.isBlocked : pipe_write_result → Bool
  | pipe_write_result.blocked _ _ => true
  | _ => false

def pipe_write_result.total : pipe_write_result → Nat
  | pipe_write_result.done t _ => t
  | pipe_write_result.epipe _ => 0
  | pipe_write_result.blocked t _ => t

def pipe_write_result.state : pipe_write_result → pipe_state
  | pipe_write_result.done _ p => p
  | pipe_write_result.epipe p => p
  | pipe_write_result.blocked _ p => p

/-- pipe_write() from io.c, single-threaded semantics: while bytes remain to
write, a full ring ((head + 1) mod PIPE_BUFSZ = tail) returns -EPIPE when the
reader is closed and otherwise blocks on the writable condition; a non-full
ring stores one byte at the head. -/
def pipe_write_loop (p : pipe_state) (src : List Nat) (total : Nat) : pipe_write_result :=
  match src with
  | [] => pipe_write_result.done total p
  | b :: rest =>
    if (p.head + 1) % PIPE_BUFSZ = p.tail then
      if p.closed_read then pipe_write_result.epipe p
      else pipe_write_result.blocked total p
    else
      pipe_write_loop
        { p with
          buf := fun i => if i = p.head then b else p.buf i,
          head := (p.head + 1) % PIPE_BUFSZ }
        rest (total + 1)

def pipe_write (p : pipe_state) (src : List Nat) : pipe_write_result :=
  pipe_write_loop p src 0

/-- Number of unread bytes currently buffered in the ring. -/
def pipe_unread (p : pipe_state) : Nat :=
  (p.head + PIPE_BUFSZ - p.tail) % PIPE_BUFSZ

/-- Number of bytes the writer can still buffer before the ring is full. -/
def pipe_avail (p : pipe_state) : Nat :=
  (p.tail + PIPE_BUFSZ - 1 - p.head) % PIPE_BUFSZ

/-- Empty pipe whose reader endpoint has already been closed. -/
def pipe_rdclosed : pipe_state :=
  { buf := fun _ => 0, head := 0, tail := 0, closed_read := true, closed_write := false }

-- THREADS: JOIN AND RECLAIM (thread.c) ----------------------------------------
/-- NTHR (thread.c): fixed size of the thread table. -/
def NTHR : Nat := 16

/-- Thread states (thread.c enum thread_state). -/
inductive thread_state_t where
  | uninitialized
  | waiting
  | running
  | ready
  | exited
deriving DecidableEq

/-- The per-thread fields thread_join uses: the parent thread (none models a
NULL parent pointer, as for the main thread) and the scheduling state. -/
structure thread_rec where
  parent : Option Nat
  state : thread_state_t
deriving DecidableEq

/-- thread_reclaim() from thread.c: reparent the reclaimed thread's children
(slots 1..NTHR-1) to its own parent, then clear its slot in thrtab. -/
def thread_reclaim (tab : Nat → Option thread_rec) (tid : Nat) : Nat → Option thread_rec :=
  let par := match tab tid with
             | some c => c.parent
             | none => none
  fun i =>
    if i = tid then none
    else
      match tab i with
      | some c =>
          if 0 < i ∧ i < NTHR ∧ c.parent = some tid then some { c with parent := par }
          else some c
      | none => none

/-- The tid == 0 search loop of thread_join(): the first slot whose thread has
the caller as parent. -/
def find_any_child (tab : Nat → Option thread_rec) (caller : Nat) : Option Nat :=
  (List.range NTHR).find? (fun i =>
    match tab i with
    | some c => c.parent == some caller
    | none => false)

/-- Outcome of thread_join: a returned value, a dereference of a NULL child
pointer (undefined behavior in the C code), or blocking in
condition_wait(child_exit) because the child has not exited yet. -/
inductive join_outcome where
  | ret (v : Int)
  | crash
  | blocked
deriving DecidableEq

/-- thread_join() from thread.c.  The validation condition is translated
exactly: it returns -EINVAL only when tid is in range, the slot is non-NULL
and the thread is not a child of the caller; when tid is out of range or names
an empty slot, the local child pointer remains NULL and the wait loop
dereferences it (crash). -/
def thread_join (tab : Nat → Option thread_rec) (caller tid0 : Nat) :
    join_outcome × (Nat → Option thread_rec) :=
  let badchild : Bool :=
    decide (0 < tid0) && decide (tid0 < NTHR) &&
      (match tab tid0 with
       | some c => decide (c.parent ≠ some caller)
       | none => false)
  if badchild then (join_outcome.ret (-EINVAL), tab)
  else
    let childid : Option Nat :=
      if tid0 = 0 then find_any_child tab caller
      else if 0 < tid0 ∧ tid0 < NTHR ∧ (tab tid0).isSome then some tid0 else none
    match childid with
    | none =>
        if tid0 = 0 then (join_outcome.ret (-EINVAL), tab)
        else (join_outcome.crash, tab)
    | some tid =>
        match tab tid with
        | none => (join_outcome.crash, tab)
        | some c =>
            if c.state ≠ thread_state_t.exited then (join_outcome.blocked, tab)
            else (join_outcome.ret ((tid : Int)), thread_reclaim tab tid)

/-- Concrete thread table: main thread in slot 0, an exited child of main in
slot 3, the idle thread in slot 15. -/
def tab_join : Nat → Option thread_rec := fun i =>
  if i = 0 then some { parent := none, state := thread_state_t.running }
  else if i = 3 then some { parent := some 0, state := thread_state_t.exited }
  else if i = 15 then some { parent := some 0, state := thread_state_t.ready }
  else none

-- LOCKS (thread.c: struct lock, lock_acquire, lock_release, thread_exit) ------
/-- Lock state (thread.h struct lock): owner thread (none when free) and the
recursive acquisition count.  The waiters on the lock's condition variable are
modelled by the blocked outcome of lock_acquire. -/
structure lock_state where
  owner : Option Nat
  count : Nat
deriving DecidableEq

/-- World of all locks plus each thread's list of held locks
(thread.c: struct thread lock_list, threaded through lock->next). -/
structure lock_world where
  locks : Nat → lock_state
  lock_list : Nat → List Nat

inductive acquire_outcome where
  | ok (w : lock_world)
  | blocked

/-- lock_acquire() from thread.c: if the caller already owns the lock,
increment the count; if the lock is free, take ownership with count 1 and push
the lock onto the caller's lock list; otherwise wait on the lock's condition
(blocked). -/
def lock_acquire (w : lock_world) (t lid : Nat) : acquire_outcome :=
  if (w.locks lid).owner = some t then
    acquire_outcome.ok
      { w with
        locks := fun i =>
          if i = lid then { w.locks lid with count := (w.locks lid).count + 1 }
          else w.locks i }
  else if (w.locks lid).owner = none then
    acquire_outcome.ok
      { w with
        locks := fun i =>
          if i = lid then { owner := some t, count := 1 } else w.locks i,
        lock_list := fun u => if u = t then lid :: w.lock_list u else w.lock_list u }
  else acquire_outcome.blocked

/-- lock_release() from thread.c: a no-op when the caller is not the owner;
otherwise decrement the count, and on reaching zero remove the lock from the
caller's lock list, clear the owner and broadcast the lock's condition. -/
def lock_release (w : lock_world) (t lid : Nat) : lock_world :=
  if (w.locks lid).owner ≠ some t then w
  else if 0 < (w.locks lid).count - 1 then
    { w with
      locks := fun i =>
        if i = lid then { w.locks lid with count := (w.locks lid).count - 1 }
        else w.locks i }
  else
    { w with
      locks := fun i =>
        if i = lid then { owner := none, count := 0 } else w.locks i,
      lock_list := fun u => if u = t then (w.lock_list u).erase lid else w.lock_list u }

/-- The force-release loop at the top of thread_exit() (thread.c): walk the
exiting thread's lock list, clear each lock's owner and count, and broadcast
each lock's condition.  Returns the updated locks and the list of lock ids
whose conditions were broadcast, in order. -/
def force_release (locks : Nat → lock_state) : List Nat → (Nat → lock_state) × List Nat
  | [] => (locks, [])
  | lid :: rest =>
      let locks2 := fun i => if i = lid then { owner := none, count := 0 } else locks i
      let r := force_release locks2 rest
      (r.1, lid :: r.2)

def thread_exit_locks (w : lock_world) (t : Nat) : lock_world × List Nat :=
  let r := force_release w.locks (w.lock_list t)
  ({ locks := r.1, lock_list := fun u => if u = t then [] else w.lock_list u }, r.2)

/-- The lock invariant from the specification: the count is positive iff the
lock has an owner. -/
def lock_inv (l : lock_state) : Prop := 0 < l.count ↔ l.owner ≠ none

/-- Run lock_acquire, staying put when it would block. -/
def lock_acquire_run (w : lock_world) (t lid : Nat) : lock_world :=
  match lock_acquire w t lid with
  | acquire_outcome.ok w2 => w2
  | acquire_outcome.blocked => w

def acquire_iter (w : lock_world) (t lid : Nat) : Nat → lock_world
  | 0 => w
  | Nat.succ n => lock_acquire_run (acquire_iter w t lid n) t lid

def release_iter (w : lock_world) (t lid : Nat) : Nat → lock_world
  | 0 => w
  | Nat.succ n => lock_release (release_iter w t lid n) t lid

/-- Lock world in which every lock is free and no thread holds a lock. -/
def lock_w0 : lock_world :=
  { locks := fun _ => { owner := none, count := 0 }, lock_list := fun _ => [] }

-- PHYSICAL PAGE ALLOCATOR (memory.c) ------------------------------------------
/-- Free-chunk node (memory.c struct page_chunk): starting page number and
page count of a run of free physical pages. -/
structure page_chunk where
  first_ppn : Nat
  pagecnt : Nat
deriving DecidableEq

/-- Condition under which the best-fit scan of alloc_phys_pages replaces its
current best candidate with chunk c: c is sufficient and strictly smaller than
the best so far. -/
def better_fit (cnt : Nat) (c : page_chunk) (best : Option (Nat × Nat)) : Bool :=
  decide (cnt ≤ c.pagecnt) &&
    (match best with
     | none => true
     | some (_, bsz) => decide (c.pagecnt < bsz))

/-- The best-fit search loop of alloc_phys_pages() (memory.c): walk the free
list keeping the index and size of the first chunk of minimal sufficient
size. -/
def best_fit_aux (cnt : Nat) : List page_chunk → Nat → Option (Nat × Nat) → Option (Nat × Nat)
  | [], _, best => best
  | c :: rest, idx, best =>
      best_fit_aux cnt rest (idx + 1)
        (if better_fit cnt c best then some (idx, c.pagecnt) else best)

/-- alloc_phys_pages() from memory.c: best-fit search; on an exact match the
chunk node is removed from the list, otherwise the chunk start advances by cnt
and its count shrinks.  Returns the first page number of the allocated run and
the new free list (memory addresses are ppn * PAGE_SIZE; identity mapping). -/
def alloc_phys_pages (l : List page_chunk) (cnt : Nat) : Option (Nat × List page_chunk) :=
  if cnt = 0 then none
  else
    match best_fit_aux cnt l 0 none with
    | none => none
    | some (i, _) =>
        match l.get? i with
        | none => none
        | some c =>
            if c.pagecnt = cnt then some (c.first_ppn, l.eraseIdx i)
            else some (c.first_ppn,
              l.set i { first_ppn := c.first_ppn + cnt, pagecnt := c.pagecnt - cnt })

/-- free_phys_pages() from memory.c: ignore a NULL page or a zero count,
otherwise push a new chunk at the head of the free list (no coalescing). -/
def free_phys_pages (l : List page_chunk) (pp cnt : Nat) : List page_chunk :=
  if pp = 0 ∨ cnt = 0 then l
  else { first_ppn := pp, pagecnt := cnt } :: l

/-- free_phys_page_count() from memory.c: total pages on the free list. -/
def chunks_total : List page_chunk → Nat
  | [] => 0
  | c :: rest => c.pagecnt + chunks_total rest

-- Allocator state machine -----------------------------------------------------
/-- Allocator state: the free-chunk list plus the number of pages currently
allocated and not yet freed (a ghost counter). -/
structure pa_state where
  chunks : List page_chunk
  allocated : Nat

/-- States reachable from the initial pool (memory_init creates one chunk
covering the whole free region) by alloc_phys_pages and free_phys_pages.
A free returns previously allocated pages: nonzero address, nonzero count,
at most the pages outstanding. -/
inductive pa_reach (ppn0 pool : Nat) : pa_state → Prop where
  | init : pa_reach ppn0 pool
      { chunks := [{ first_ppn := ppn0, pagecnt := pool }], allocated := 0 }
  | alloc (s : pa_state) (cnt p : Nat) (l2 : List page_chunk) :
      pa_reach ppn0 pool s → alloc_phys_pages s.chunks cnt = some (p, l2) →
      pa_reach ppn0 pool { chunks := l2, allocated := s.allocated + cnt }
  | free (s : pa_state) (pp cnt : Nat) :
      pa_reach ppn0 pool s → pp ≠ 0 → cnt ≠ 0 → cnt ≤ s.allocated →
      pa_reach ppn0 pool { chunks := free_phys_pages s.chunks pp cnt,
                           allocated := s.allocated - cnt }

-- PAGE TABLES AND THE USER PAGE-FAULT HANDLER (memory.c) ----------------------
def PAGE_SIZE : Nat := 4096

def PTE_V : Nat := 1

def PTE_R : Nat := 2

def PTE_W : Nat := 4

def PTE_X : Nat := 8

def PTE_U : Nat := 16

def PTE_G : Nat := 32

def PTE_A : Nat := 64

def PTE_D : Nat := 128

/-- MAP_RWUG (memory.h): user read/write flags used by the fault handler. -/
def MAP_RWUG : Nat := PTE_R ||| PTE_W ||| PTE_U ||| PTE_G

/-- UMEM_END_VMA (conf.h): the user-virtual-address ceiling. -/
def UMEM_END_VMA : Nat := 0x100000000

/-- Page-table entry (memory.c struct pte): permission/valid flags and the
physical page number. -/
structure pte where
  flags : Nat
  ppn : Nat
deriving DecidableEq

def pte_valid (e : pte) : Bool := decide (e.flags &&& PTE_V ≠ 0)

def pte_leaf (e : pte) : Bool := decide (e.flags &&& (PTE_R ||| PTE_W ||| PTE_X) ≠ 0)

def leaf_pte (ppn rwxug_flags : Nat) : pte :=
  { flags := rwxug_flags ||| PTE_A ||| PTE_D ||| PTE_V, ppn := ppn }

def ptab_pte (ppn g_flag : Nat) : pte := { flags := g_flag ||| PTE_V, ppn := ppn }

def null_pte : pte := { flags := 0, ppn := 0 }

def vpn_l2 (v : Nat) : Nat := (v >>> 30) &&& 511

def vpn_l1 (v : Nat) : Nat := (v >>> 21) &&& 511

def vpn_l0 (v : Nat) : Nat := (v >>> 12) &&& 511

/-- wellformed() from memory.c: address bits 63:38 all 0 or all 1 (canonical
Sv39 form), for 64-bit addresses. -/
def wellformed (vma : Nat) : Bool :=
  (vma >>> 38 = 0) || (vma >>> 38 = 0x3FFFFFF)

/-- Machine state for the virtual-memory manager: the physical-page free list,
the contents of physical memory viewed as page-table nodes (ppn and entry
index to entry), and the ppn of the active root table (satp). -/
structure mach_state where
  chunks : List page_chunk
  ptmem : Nat → Nat → pte
  root : Nat

/-- Store one page-table entry into physical memory. -/
def pt_write (m : Nat → Nat → pte) (p i : Nat) (e : pte) : Nat → Nat → pte :=
  fun q j => if q = p ∧ j = i then e else m q j

/-- memset(page, 0, PAGE_SIZE): a zero page holds 512 null PTEs. -/
def page_zero (m : Nat → Nat → pte) (p : Nat) : Nat → Nat → pte :=
  fun q j => if q = p then null_pte else m q j

/-- walk_create() from memory.c: descend the active table from level 2; an
empty non-leaf entry is filled with a freshly allocated, zeroed subtable when
alloc is set (and the walk fails when it is not); a huge-page leaf at level 2
or 1 fails.  Returns the updated state and, on success, the ppn of the level-0
table plus the entry index for vma.  The state is threaded because subtable
allocations mutate the free list and memory even when a later step fails. -/
def walk_create (st : mach_state) (vma : Nat) (alloc : Bool) :
    mach_state × Option (Nat × Nat) :=
  if ¬ wellformed vma then (st, none)
  else
    let e2 := st.ptmem st.root (vpn_l2 vma)
    if pte_valid e2 && pte_leaf e2 then (st, none)
    else
      let step2 : Option (mach_state × Nat) :=
        if pte_valid e2 then some (st, e2.ppn)
        else if alloc then
          match alloc_phys_pages st.chunks 1 with
          | none => none
          | some (p1, ch) =>
              some ({ st with
                        chunks := ch,
                        ptmem := pt_write (page_zero st.ptmem p1)
                                   st.root (vpn_l2 vma) (ptab_pte p1 PTE_G) }, p1)
        else none
      match step2 with
      | none => (st, none)
      | some (st1, l1p) =>
          let e1 := st1.ptmem l1p (vpn_l1 vma)
          if pte_valid e1 && pte_leaf e1 then (st1, none)
          else if pte_valid e1 then (st1, some (e1.ppn, vpn_l0 vma))
          else if alloc then
            match alloc_phys_pages st1.chunks 1 with
            | none => (st1, none)
            | some (p0, ch) =>
                ({ st1 with
                     chunks := ch,
                     ptmem := pt_write (page_zero st1.ptmem p0)
                                l1p (vpn_l1 vma) (ptab_pte p0 PTE_G) },
                 some (p0, vpn_l0 vma))
          else (st1, none)

/-- map_page() from memory.c: reject a non-canonical vma or an unaligned
physical address with -EINVAL; walk with create and write a leaf entry with
flags|A|D|V; -ENOMEM when the walk fails.  pa is a physical address (the ppn
is pa / PAGE_SIZE); 0 models the NULL success return. -/
def map_page (st : mach_state) (vma pa rwxug_flags : Nat) : mach_state × Int :=
  if ¬ wellformed vma ∨ pa % PAGE_SIZE ≠ 0 then (st, -EINVAL)
  else
    match walk_create st vma true with
    | (st2, none) => (st2, -ENOMEM)
    | (st2, some (l0p, idx)) =>
        let e := leaf_pte (pa / PAGE_SIZE) rwxug_flags
        ({ st2 with ptmem := pt_write st2.ptmem l0p idx e }, 0)

/-- handle_umode_page_fault() from memory.c: a fault at a non-canonical
address or at or above 0x400000000000 is not handled (returns 0, upon which
handle_umode_exception terminates the process); otherwise allocate a physical
page, zero-fill it, and map it at the page containing vma with MAP_RWUG user
read/write permissions; returns 1 when the fault was serviced. -/
def handle_umode_page_fault (st : mach_state) (vma : Nat) : mach_state × Nat :=
  if ¬ wellformed vma ∨ 0x400000000000 ≤ vma then (st, 0)
  else
    let v := vma / PAGE_SIZE * PAGE_SIZE
    match alloc_phys_pages st.chunks 1 with
    | none => (st, 0)
    | some (p, ch) =>
        let st1 : mach_state := { st with chunks := ch, ptmem := page_zero st.ptmem p }
        let r := map_page st1 v (p * PAGE_SIZE) MAP_RWUG
        if r.2 < 0 then ({ r.1 with chunks := free_phys_pages r.1.chunks p 1 }, 0)
        else (r.1, 1)

/-- Fault-handler machine state for concrete runs: empty root table at ppn 0,
eight free pages starting at ppn 10. -/
def st_pf : mach_state :=
  { chunks := [{ first_ppn := 10, pagecnt := 8 }],
    ptmem := fun _ _ => null_pte,
    root := 0 }

/-- Intermediate fault-handler state of the concrete run: page 10 allocated
and zeroed. -/
def st_pf1 : mach_state :=
  { st_pf with chunks := [⟨11, 7⟩], ptmem := page_zero st_pf.ptmem 10 }

-- VIRTIO BLOCK DRIVER (dev/vioblk.c) ------------------------------------------
/-- The vioblk device fields the request paths read: negotiated block size,
capacity in sectors, the device's seg_max config, and the number of free
descriptors in the pool. -/
structure vioblk_dev where
  blk_size : Nat
  capacity : Nat
  seg_max : Nat
  free_desc : Nat
deriving DecidableEq

/-- vioblk_readat() from vioblk.c: validate buffer and alignment, clip the
range to capacity, compute the descriptor chain length and fail with -EBUSY
when the pool cannot supply it; then block until the ISR completes the slot.
The device completion is parametrized: used_len is the used-ring length the
ISR stored into the slot's result, status the status byte the device wrote.
The return path is ret = result - 1; the status byte is never inspected. -/
def vioblk_readat (dev : vioblk_dev) (pos : Nat) (bufsz : Int)
    (used_len : Nat) (status : Nat) : Int :=
  if bufsz ≤ 0 then -EINVAL
  else if pos % dev.blk_size ≠ 0 ∨ bufsz.toNat % dev.blk_size ≠ 0 then -EINVAL
  else if dev.capacity * dev.blk_size < pos then -EINVAL
  else
    let start_sector := pos / dev.blk_size
    let total_blocks := bufsz.toNat / dev.blk_size
    let bufsz2 := if dev.capacity < start_sector + total_blocks
                  then (dev.capacity - start_sector) * dev.blk_size
                  else bufsz.toNat
    let max_seg := if dev.seg_max = 0 then bufsz2 else dev.seg_max
    let num_data_desc := (bufsz2 + max_seg - 1) / max_seg
    if dev.free_desc < 1 + num_data_desc + 1 then -EBUSY
    else
      let _ := status
      (used_len : Int) - 1

/-- vioblk_writeat() from vioblk.c: identical validation and chain
construction; the return path is ret = result with no adjustment and, again,
no inspection of the status byte. -/
def vioblk_writeat (dev : vioblk_dev) (pos : Nat) (len : Int)
    (used_len : Nat) (status : Nat) : Int :=
  if len ≤ 0 then -EINVAL
  else if pos % dev.blk_size ≠ 0 ∨ len.toNat % dev.blk_size ≠ 0 then -EINVAL
  else if dev.capacity * dev.blk_size < pos then -EINVAL
  else
    let start_sector := pos / dev.blk_size
    let total_blocks := len.toNat / dev.blk_size
    let len2 := if dev.capacity < start_sector + total_blocks
                then (dev.capacity - start_sector) * dev.blk_size
                else len.toNat
    let max_seg := if dev.seg_max = 0 then len2 else dev.seg_max
    let num_data_desc := (len2 + max_seg - 1) / max_seg
    if dev.free_desc < 1 + num_data_desc + 1 then -EBUSY
    else
      let _ := status
      (used_len : Int)

/-- Modelled from the spec: what a standard virtio block device reports in the
used-ring length field (the driver's ISR copies it into the request slot).
The device counts only the bytes it wrote into the chain: the data descriptors
plus the one-byte status for a read, the status byte alone for a write. -/
def virtio_used_len_read (nbytes : Nat) : Nat := nbytes + 1

/-- Modelled from the spec: used-ring length a device reports for a completed
write request (only the status byte is device-written). -/
def virtio_used_len_write (nbytes : Nat) : Nat :=
  let _ := nbytes
  1

/-- VIRTIO_BLK_S_OK: status byte reported on success. -/
def VIRTIO_BLK_S_OK : Nat := 0

/-- Concrete vioblk device: 512-byte blocks, 8 sectors, no seg_max limit,
all 8 descriptors free. -/
def dev512 : vioblk_dev := { blk_size := 512, capacity := 8, seg_max := 0, free_desc := 8 }

-- KTFS WRITE PATH AND THE SEEKABLE WRAPPER (ktfs.c, io.c) ---------------------
def KTFS_BLKSZ : Nat := 512

/-- The position/length logic of ktfs_writeat() (ktfs.c): -EINVAL when pos is
beyond the file size or len is negative, 0 for an empty write; otherwise the
transfer length is clipped so that pos + len ≤ size, the clipped number of
bytes is written and returned.  ktfs_writeat never calls set_file_size: the
file size is unchanged. -/
def ktfs_writeat_count (size pos : Nat) (len : Int) : Int :=
  if size < pos then -EINVAL
  else if len < 0 then -EINVAL
  else if len = 0 then 0
  else if (size : Int) < len + pos then ((size - pos : Nat) : Int)
  else len

/-- Largest file size reachable through 3 direct, 1 indirect and 2
double-indirect block pointers (set_file_size in ktfs.c). -/
def ktfs_max_file_size : Nat :=
  KTFS_BLKSZ * (3 + 1 * (KTFS_BLKSZ / 4) + 2 * ((KTFS_BLKSZ / 4) * (KTFS_BLKSZ / 4)))

/-- set_file_size() from ktfs.c (the IOCTL_SETEND handler of ktfs_cntl):
reject sizes beyond the maximal reachable layout with -EINVAL; allocate data
and index blocks for each additional block needed (bitmap allocation is
abstracted into the alloc_ok flag, exhaustion yields -EACCESS); update the
in-memory and on-disk inode size.  Returns the result code and the new size. -/
def set_file_size (size newsize : Nat) (alloc_ok : Bool) : Int × Nat :=
  if ktfs_max_file_size < newsize then (-EINVAL, size)
  else
    let old_numblks := size / KTFS_BLKSZ + (if size % KTFS_BLKSZ ≠ 0 then 1 else 0)
    let new_numblks := newsize / KTFS_BLKSZ + (if newsize % KTFS_BLKSZ ≠ 0 then 1 else 0)
    if old_numblks < new_numblks ∧ alloc_ok = false then (-EACCESS, size)
    else (0, newsize)

/-- Seekable-wrapper state (io.c struct seekio): current position, end
position, block size of the backing endpoint. -/
structure seekio_state where
  pos : Nat
  endpos : Nat
  blksz : Nat
deriving DecidableEq

/-- seekio_write() from io.c over a KTFS file backing (ktfs_open wraps the
file endpoint in create_seekable_io; KTFS reports block size 1): an empty
write returns 0, a request below blksz is -EINVAL, the length is truncated to
a multiple of blksz; when end - pos < len the wrapper first propagates
IOCTL_SETEND(pos + len) to the backing and records the new end, then performs
the backing writeat at pos and advances pos by the count returned. -/
def seekio_write (s : seekio_state) (fsize : Nat) (len : Int) (alloc_ok : Bool) :
    Int × seekio_state × Nat :=
  if len = 0 then (0, s, fsize)
  else if len < (s.blksz : Int) then (-EINVAL, s, fsize)
  else
    let len2 := len.toNat / s.blksz * s.blksz
    if s.endpos - s.pos < len2 then
      let se := set_file_size fsize (s.pos + len2) alloc_ok
      if se.1 ≠ 0 then (se.1, s, fsize)
      else
        let w := ktfs_writeat_count se.2 s.pos (len2 : Int)
        let s2 : seekio_state :=
          { s with pos := s.pos + (if w < 0 then 0 else w.toNat), endpos := s.pos + len2 }
        (w, s2, se.2)
    else
      let w := ktfs_writeat_count fsize s.pos (len2 : Int)
      let s2 : seekio_state := { s with pos := s.pos + (if w < 0 then 0 else w.toNat) }
      (w, s2, fsize)

-- THEOREMS ------------------------------------------------------------------

-- Pipe write loop lemmas ------------------------------------------------------
lemma pipe_write_loop_fits (src : List Nat) :
    ∀ (p : pipe_state) (total : Nat), p.head < PIPE_BUFSZ → p.tail < PIPE_BUFSZ →
    src.length ≤ pipe_avail p →
    ∃ q, pipe_write_loop p src total = pipe_write_result.done (total + src.length) q ∧
      q.head = (p.head + src.length) % PIPE_BUFSZ ∧ q.tail = p.tail ∧
      q.closed_read = p.closed_read ∧ q.closed_write = p.closed_write := by
  induction src with
  | nil =>
    intro p total hh _ _
    exact ⟨p, rfl, by simpa using (Nat.mod_eq_of_lt hh).symm, rfl, rfl, rfl⟩
  | cons b rest ih =>
    intro p total hh ht hav
    have hnotfull : ¬ (p.head + 1) % PIPE_BUFSZ = p.tail := by
      intro hfull
      have hav0 : pipe_avail p = 0 := by
        simp only [pipe_avail, PIPE_BUFSZ] at *
        omega
      rw [hav0] at hav
      exact absurd hav (by simp)
    rw [pipe_write_loop, if_neg hnotfull]
    set p2 : pipe_state :=
      { p with
        buf := fun i => if i = p.head then b else p.buf i,
        head := (p.head + 1) % PIPE_BUFSZ } with hp2
    have hh2 : p2.head < PIPE_BUFSZ := by
      simp only [hp2]
      exact Nat.mod_lt _ (by simp [PIPE_BUFSZ])
    have hav2 : rest.length ≤ pipe_avail p2 := by
      have hstep : pipe_avail p2 = pipe_avail p - 1 := by
        simp only [hp2, pipe_avail, PIPE_BUFSZ] at *
        omega
      have hlen : rest.length + 1 ≤ pipe_avail p := by
        simpa using hav
      omega
    obtain ⟨q, hq, hqh, hqt, hqr, hqw⟩ := ih p2 (total + 1) hh2 ht hav2
    refine ⟨q, ?_, ?_, hqt, hqr, hqw⟩
    · rw [hq]
      have harith : total + 1 + rest.length = total + (rest.length + 1) := by omega
      simp [harith]
    · rw [hqh]
      simp only [hp2]
      rw [Nat.mod_add_mod]
      have harith : p.head + 1 + rest.length = p.head + (b :: rest).length := by
        simp
        omega
      rw [harith]

lemma pipe_write_loop_full_blocks (src : List Nat) :
    ∀ (p : pipe_state) (total : Nat), p.head < PIPE_BUFSZ → p.tail < PIPE_BUFSZ →
    p.closed_read = false → pipe_avail p < src.length →
    ∃ q, pipe_write_loop p src total = pipe_write_result.blocked (total + pipe_avail p) q := by
  induction src with
  | nil =>
    intro p total _ _ _ hav
    simp at hav
  | cons b rest ih =>
    intro p total hh ht hcr hav
    by_cases hfull : (p.head + 1) % PIPE_BUFSZ = p.tail
    · have hav0 : pipe_avail p = 0 := by
        simp only [pipe_avail, PIPE_BUFSZ] at *
        omega
      rw [pipe_write_loop, if_pos hfull, if_neg (by simp [hcr])]
      exact ⟨p, by simp [hav0]⟩
    · have havpos : 0 < pipe_avail p := by
        simp only [pipe_avail, PIPE_BUFSZ] at *
        omega
      rw [pipe_write_loop, if_neg hfull]
      set p2 : pipe_state :=
        { p with
          buf := fun i => if i = p.head then b else p.buf i,
          head := (p.head + 1) % PIPE_BUFSZ } with hp2
      have hh2 : p2.head < PIPE_BUFSZ := by
        simp only [hp2]
        exact Nat.mod_lt _ (by simp [PIPE_BUFSZ])
      have havstep : pipe_avail p2 = pipe_avail p - 1 := by
        simp only [hp2, pipe_avail, PIPE_BUFSZ] at *
        omega
      have hav2 : pipe_avail p2 < rest.length := by
        simp at hav
        omega
      have hcr2 : p2.closed_read = false := by
        simp only [hp2]
        exact hcr
      obtain ⟨q, hq⟩ := ih p2 (total + 1) hh2 ht hcr2 hav2
      refine ⟨q, ?_⟩
      rw [hq, havstep]
      congr 1
      omega

-- Pipe read loop lemmas -------------------------------------------------------
lemma pipe_read_loop_drain :
    ∀ (len : Nat) (p : pipe_state) (total : Nat) (acc : List Nat),
    p.head < PIPE_BUFSZ → p.tail < PIPE_BUFSZ → p.closed_write = true →
    pipe_unread p < len →
    ∃ q bytes, pipe_read_loop p len total acc =
      pipe_read_result.done (total + pipe_unread p) bytes q := by
  intro len
  induction len with
  | zero =>
    intro p total acc _ _ _ hun
    simp at hun
  | succ k ih =>
    intro p total acc hh ht hcw hun
    by_cases hempty : p.head = p.tail
    · have hun0 : pipe_unread p = 0 := by
        simp only [pipe_unread, PIPE_BUFSZ] at *
        omega
      rw [pipe_read_loop, if_pos hempty, if_pos hcw]
      exact ⟨p, acc.reverse, by simp [hun0]⟩
    · have hunpos : 0 < pipe_unread p := by
        simp only [pipe_unread, PIPE_BUFSZ] at *
        omega
      rw [pipe_read_loop, if_neg hempty]
      set p2 : pipe_state := { p with tail := (p.tail + 1) % PIPE_BUFSZ } with hp2
      have ht2 : p2.tail < PIPE_BUFSZ := by
        simp only [hp2]
        exact Nat.mod_lt _ (by simp [PIPE_BUFSZ])
      have hstep : pipe_unread p2 = pipe_unread p - 1 := by
        simp only [hp2, pipe_unread, PIPE_BUFSZ] at *
        omega
      have hun2 : pipe_unread p2 < k := by omega
      have hcw2 : p2.closed_write = true := by
        simp only [hp2]
        exact hcw
      obtain ⟨q, bytes, hq⟩ := ih p2 (total + 1) (p.buf p.tail :: acc) hh ht2 hcw2 hun2
      refine ⟨q, bytes, ?_⟩
      rw [hq, hstep]
      congr 1
      omega

lemma pipe_write_loop_epipe_closed :
    ∀ (src : List Nat) (p : pipe_state) (total : Nat) (q : pipe_state),
    pipe_write_loop p src total = pipe_write_result.epipe q → p.closed_read = true := by
  intro src
  induction src with
  | nil =>
    intro p total q h
    simp [pipe_write_loop] at h
  | cons b rest ih =>
    intro p total q h
    rw [pipe_write_loop] at h
    by_cases hfull : (p.head + 1) % PIPE_BUFSZ = p.tail
    · rw [if_pos hfull] at h
      by_cases hcr : p.closed_read
      · exact hcr
      · rw [if_neg hcr] at h
        simp at h
    · rw [if_neg hfull] at h
      have h2 := ih
        { p with
          buf := fun i => if i = p.head then b else p.buf i,
          head := (p.head + 1) % PIPE_BUFSZ }
        (total + 1) q h
      exact h2

-- CLAIM THEOREMS FOR THE TRAP LAYER, MEMIO, AND PIPES -------------------------
/-- C1 (counterexample): a system call with an unknown number leaves the
negative error -ENOTSUP in a0, and the trap handler then terminates the
process via process_exit instead of resuming it at the next instruction. -/
theorem sc_fail_exits_cex :
    syscall_dispatch env_ok tfr_badnum < 0 ∧
    handle_umode_ecall (syscall_dispatch env_ok) tfr_badnum =
      umode_outcome.exited (handle_syscall (syscall_dispatch env_ok) tfr_badnum) ∧
    ∀ t, handle_umode_ecall (syscall_dispatch env_ok) tfr_badnum ≠ umode_outcome.resume t := by
  refine ⟨by decide, by decide, ?_⟩
  intro t h
  have h2 : handle_umode_ecall (syscall_dispatch env_ok) tfr_badnum =
      umode_outcome.exited (handle_syscall (syscall_dispatch env_ok) tfr_badnum) := by decide
  rw [h2] at h
  exact absurd h (by simp)

/-- C1 (amended): on a user-mode ecall the trap layer always advances the
saved pc by 4 and places the dispatcher result in a0; the process resumes at
the next instruction exactly when that result is nonnegative, and is
terminated via process_exit when the result is negative. -/
theorem sc_trap_frame_update (dispatch : trap_frame → Int) (tfr : trap_frame) :
    (handle_syscall dispatch tfr).sepc = tfr.sepc + 4 ∧
    (handle_syscall dispatch tfr).a0 = dispatch tfr ∧
    handle_umode_ecall dispatch tfr =
      (if dispatch tfr < 0 then umode_outcome.exited (handle_syscall dispatch tfr)
       else umode_outcome.resume (handle_syscall dispatch tfr)) := by
  exact ⟨rfl, rfl, rfl⟩

/-- C6 (counterexample): a memio readat with pos exactly at the buffer end
returns -EINVAL, not 0. -/
theorem memio_read_at_end_cex :
    (memio_readat mio4 4 2).1 = -EINVAL ∧ (-EINVAL : Int) ≠ 0 := by
  decide

/-- C6 (amended): memio readat with pos at or past the end (or a negative
size) returns -EINVAL; a readat starting below the end is truncated to the
bytes available and returns the truncated count and exactly those bytes; and
SETEND succeeds exactly when the new end does not exceed the current size
(shrink only), leaving the size unchanged on failure. -/
theorem memio_bounds_spec (mio : memio) (pos : Nat) (bufsz : Int) (new_end : Nat) :
    (mio.size ≤ pos → (memio_readat mio pos bufsz).1 = -EINVAL) ∧
    (pos < mio.size → 0 ≤ bufsz →
      (memio_readat mio pos bufsz).1 =
        ((min bufsz.toNat (mio.size - pos) : Nat) : Int) ∧
      (memio_readat mio pos bufsz).2 =
        (mio.buf.drop pos).take (min bufsz.toNat (mio.size - pos))) ∧
    ((memio_setend mio new_end).1 = 0 ↔ new_end ≤ mio.size) ∧
    (memio_setend mio new_end).2.size =
      (if mio.size < new_end then mio.size else new_end) := by
  refine ⟨?_, ?_, ?_, ?_⟩
  · intro hend
    rw [memio_readat, if_pos (Or.inl hend)]
  · intro hpos hsz
    have hcond : ¬ (mio.size ≤ pos ∨ bufsz < 0) := by
      push_neg
      exact ⟨by omega, by omega⟩
    rw [memio_readat, if_neg hcond]
    have hn : (if mio.size < pos + bufsz.toNat then mio.size - pos else bufsz.toNat)
        = min bufsz.toNat (mio.size - pos) := by
      split_ifs with hc <;> omega
    constructor
    · simp only [hn]
    · simp only [hn]
  · rw [memio_setend]
    split_ifs with h
    · simp [EINVAL]
      omega
    · simp
      omega
  · rw [memio_setend]
    split_ifs with h
    · rfl
    · rfl

/-- C6 (witness). -/
theorem memio_bounds_spec_witness :
    (4 : Nat) ≤ 4 ∧ (memio_readat mio4 4 2).1 = -EINVAL := by
  exact ⟨by decide, (memio_bounds_spec mio4 4 2 0).1 (by decide)⟩

/-- C7 (counterexample): a 1-byte write to an empty pipe whose reader endpoint
is closed completes and returns 1; it does not return -EPIPE. -/
theorem pipe_write_rdclosed_cex :
    (pipe_write pipe_rdclosed [42]).isEpipe = false ∧
    (pipe_write pipe_rdclosed [42]).isDone = true ∧
    (pipe_write pipe_rdclosed [42]).total = 1 := by
  refine ⟨rfl, rfl, rfl⟩

/-- C7 (amended): a read that finds the pipe empty with the writer closed
returns the bytes read so far (0 is EOF); a write returns -EPIPE exactly when
it encounters a full ring with the reader-closed flag set — a write that fits
in the free space of the ring completes and returns its full length even when
the reader endpoint is already closed. -/
theorem pipe_eof_epipe_spec (p : pipe_state) (len : Nat) (src : List Nat)
    (hh : p.head < PIPE_BUFSZ) (ht : p.tail < PIPE_BUFSZ) :
    (p.closed_write = true → pipe_unread p < len →
      ∃ q bytes, pipe_read p len = pipe_read_result.done (pipe_unread p) bytes q) ∧
    (∀ b rest, src = b :: rest → (p.head + 1) % PIPE_BUFSZ = p.tail →
      p.closed_read = true → pipe_write p src = pipe_write_result.epipe p) ∧
    (∀ q, pipe_write p src = pipe_write_result.epipe q → p.closed_read = true) ∧
    (src.length ≤ pipe_avail p →
      ∃ q, pipe_write p src = pipe_write_result.done src.length q) := by
  refine ⟨?_, ?_, ?_, ?_⟩
  · intro hcw hun
    obtain ⟨q, bytes, hq⟩ := pipe_read_loop_drain len p 0 [] hh ht hcw hun
    exact ⟨q, bytes, by simpa using hq⟩
  · intro b rest hsrc hfull hcr
    rw [hsrc, pipe_write, pipe_write_loop, if_pos hfull, if_pos hcr]
  · intro q hq
    exact pipe_write_loop_epipe_closed src p 0 q hq
  · intro hfits
    obtain ⟨q, hq, _, _, _, _⟩ := pipe_write_loop_fits src p 0 hh ht hfits
    exact ⟨q, by simpa using hq⟩

/-- C7 (witness): instantiated on an empty pipe with the writer closed and on
the reader-closed pipe used in the counterexample. -/
theorem pipe_eof_epipe_spec_witness :
    ((pipe_rdclosed.head < PIPE_BUFSZ ∧ pipe_rdclosed.tail < PIPE_BUFSZ) ∧
      [(42 : Nat)].length ≤ pipe_avail pipe_rdclosed) ∧
    (∃ q, pipe_write pipe_rdclosed [42] = pipe_write_result.done [(42 : Nat)].length q) := by
  refine ⟨⟨⟨by decide, by decide⟩, by decide⟩, ?_⟩
  exact (pipe_eof_epipe_spec pipe_rdclosed 0 [42] (by decide) (by decide)).2.2.2 (by decide)

/-- C10: the single-page ring holds at most PIPE_BUFSZ - 1 = 4095 unread
bytes; a write of up to 4095 bytes into an empty pipe completes without
blocking and leaves exactly that many unread bytes, while a longer write into
an empty pipe buffers 4095 bytes and then blocks on the writable condition. -/
theorem pipe_ring_capacity (p : pipe_state) (src : List Nat)
    (hh : p.head < PIPE_BUFSZ) (ht : p.tail < PIPE_BUFSZ)
    (hempty : p.head = p.tail) :
    pipe_unread p = 0 ∧
    (∀ q : pipe_state, pipe_unread q ≤ PIPE_BUFSZ - 1) ∧
    (src.length ≤ PIPE_BUFSZ - 1 →
      ∃ q, pipe_write p src = pipe_write_result.done src.length q ∧
        pipe_unread q = src.length) ∧
    (p.closed_read = false → PIPE_BUFSZ - 1 < src.length →
      ∃ q, pipe_write p src = pipe_write_result.blocked (PIPE_BUFSZ - 1) q) := by
  have havail : pipe_avail p = PIPE_BUFSZ - 1 := by
    simp only [pipe_avail, PIPE_BUFSZ] at *
    omega
  refine ⟨?_, ?_, ?_, ?_⟩
  · simp only [pipe_unread, PIPE_BUFSZ] at *
    omega
  · intro q
    simp only [pipe_unread, PIPE_BUFSZ]
    omega
  · intro hlen
    obtain ⟨q, hq, hqh, hqt, _, _⟩ :=
      pipe_write_loop_fits src p 0 hh ht (by omega)
    refine ⟨q, by simpa using hq, ?_⟩
    rw [pipe_unread, hqh, hqt]
    simp only [PIPE_BUFSZ] at *
    omega
  · intro hcr hlen
    obtain ⟨q, hq⟩ := pipe_write_loop_full_blocks src p 0 hh ht hcr (by omega)
    refine ⟨q, ?_⟩
    rw [pipe_write, hq, havail]
    norm_num

/-- C10 (witness). -/
theorem pipe_ring_capacity_witness :
    (pipe_rdclosed.head < PIPE_BUFSZ ∧ pipe_rdclosed.tail < PIPE_BUFSZ ∧
      pipe_rdclosed.head = pipe_rdclosed.tail) ∧
    pipe_unread pipe_rdclosed = 0 := by
  refine ⟨⟨by decide, by decide, by decide⟩, ?_⟩
  exact (pipe_ring_capacity pipe_rdclosed [] (by decide) (by decide) (by decide)).1

/-- C5: thread_join(3) by the parent returns 3 and reclaims the slot, but a
second thread_join(3) then dereferences the NULL child pointer (crash) instead
of returning -EINVAL as the claim (and the function's own documentation)
states; the same happens for any tid naming an empty slot. -/
theorem join_second_join_crashes :
    (thread_join tab_join 0 3).1 = join_outcome.ret 3 ∧
    (thread_join (thread_join tab_join 0 3).2 0 3).1 = join_outcome.crash ∧
    (thread_join (thread_join tab_join 0 3).2 0 3).1 ≠ join_outcome.ret (-EINVAL) ∧
    (thread_join tab_join 0 7).1 = join_outcome.crash := by
  refine ⟨by decide, by decide, by decide, by decide⟩

-- Lock lemmas -----------------------------------------------------------------
lemma force_release_cleared :
    ∀ (l : List Nat) (locks : Nat → lock_state) (lid : Nat),
    locks lid = { owner := none, count := 0 } →
    (force_release locks l).1 lid = { owner := none, count := 0 } := by
  intro l
  induction l with
  | nil => intro locks lid h; exact h
  | cons lid2 rest ih =>
    intro locks lid h
    rw [force_release]
    apply ih
    by_cases heq : lid = lid2 <;> simp [heq, h]

lemma force_release_mem :
    ∀ (l : List Nat) (locks : Nat → lock_state) (lid : Nat), lid ∈ l →
    (force_release locks l).1 lid = { owner := none, count := 0 } := by
  intro l
  induction l with
  | nil => intro locks lid h; simp at h
  | cons lid2 rest ih =>
    intro locks lid h
    rw [force_release]
    rcases List.mem_cons.mp h with h1 | h2
    · apply force_release_cleared
      simp [h1]
    · exact ih _ lid h2

lemma force_release_broadcasts :
    ∀ (l : List Nat) (locks : Nat → lock_state), (force_release locks l).2 = l := by
  intro l
  induction l with
  | nil => intro locks; rfl
  | cons lid2 rest ih =>
    intro locks
    rw [force_release]
    simp [ih]

lemma force_release_inv :
    ∀ (l : List Nat) (locks : Nat → lock_state),
    (∀ i, lock_inv (locks i)) → ∀ i, lock_inv ((force_release locks l).1 i) := by
  intro l
  induction l with
  | nil => intro locks h i; exact h i
  | cons lid2 rest ih =>
    intro locks h i
    rw [force_release]
    apply ih
    intro j
    by_cases heq : j = lid2
    · simp [heq, lock_inv]
    · simp [heq]
      exact h j

lemma acquire_iter_owns (w : lock_world) (t lid : Nat)
    (h0 : w.locks lid = { owner := none, count := 0 }) :
    ∀ n, 1 ≤ n →
    (acquire_iter w t lid n).locks lid = { owner := some t, count := n } := by
  intro n
  induction n with
  | zero => intro h; omega
  | succ k ih =>
    intro _
    by_cases hk : 1 ≤ k
    · have hprev := ih hk
      rw [acquire_iter, lock_acquire_run, lock_acquire, if_pos (by rw [hprev])]
      simp [hprev]
    · have hk0 : k = 0 := by omega
      subst hk0
      have hbase : acquire_iter w t lid 1 = lock_acquire_run w t lid := rfl
      rw [hbase, lock_acquire_run, lock_acquire,
        if_neg (by rw [h0]; simp), if_pos (by rw [h0])]
      simp

lemma release_iter_partial (w : lock_world) (t lid n : Nat) (hn : 1 ≤ n)
    (hown : w.locks lid = { owner := some t, count := n }) :
    ∀ k, k ≤ n →
    (release_iter w t lid k).locks lid =
      (if k < n then { owner := some t, count := n - k }
       else { owner := none, count := 0 }) := by
  intro k
  induction k with
  | zero =>
    intro _
    rw [release_iter, if_pos (by omega)]
    simpa using hown
  | succ j ih =>
    intro hk
    have hprev := ih (by omega)
    rw [if_pos (by omega : j < n)] at hprev
    rw [release_iter, lock_release]
    rw [if_neg (by rw [hprev]; simp)]
    by_cases hlast : j + 1 < n
    · rw [if_pos (by rw [hprev]; show 0 < n - j - 1; omega)]
      rw [if_pos hlast]
      have hcnt : n - j - 1 = n - (j + 1) := by omega
      simp [hprev, hcnt]
    · rw [if_neg (by rw [hprev]; show ¬ 0 < n - j - 1; omega)]
      rw [if_neg hlast]
      simp

-- C8 claim theorem ------------------------------------------------------------
/-- C8: the invariant (count positive iff owned) is preserved by acquire,
release and the thread_exit force-release; a release by a non-owner is a
no-op; N recursive acquisitions need exactly N releases before the owner
becomes none (meanwhile any other thread's acquire blocks), after which
another thread can acquire; and thread_exit force-releases every lock on the
exiting thread's lock list, broadcasting each lock's condition. -/
theorem lock_discipline_spec (w : lock_world) (t u lid : Nat) (n k : Nat) :
    ((∀ i, lock_inv (w.locks i)) → ∀ w2, lock_acquire w t lid = acquire_outcome.ok w2 →
      ∀ i, lock_inv (w2.locks i)) ∧
    ((∀ i, lock_inv (w.locks i)) → ∀ i, lock_inv ((lock_release w t lid).locks i)) ∧
    ((∀ i, lock_inv (w.locks i)) → ∀ i, lock_inv ((thread_exit_locks w t).1.locks i)) ∧
    ((w.locks lid).owner ≠ some t → lock_release w t lid = w) ∧
    (w.locks lid = { owner := none, count := 0 } → 1 ≤ n →
      (acquire_iter w t lid n).locks lid = { owner := some t, count := n }) ∧
    (w.locks lid = { owner := none, count := 0 } → 1 ≤ n → k < n →
      ((release_iter (acquire_iter w t lid n) t lid k).locks lid).owner = some t ∧
      (u ≠ t →
        lock_acquire (release_iter (acquire_iter w t lid n) t lid k) u lid =
          acquire_outcome.blocked)) ∧
    (w.locks lid = { owner := none, count := 0 } → 1 ≤ n →
      ((release_iter (acquire_iter w t lid n) t lid n).locks lid) =
        { owner := none, count := 0 } ∧
      ∀ w3, lock_acquire (release_iter (acquire_iter w t lid n) t lid n) u lid =
          acquire_outcome.ok w3 →
        (w3.locks lid).owner = some u) ∧
    ((thread_exit_locks w t).2 = w.lock_list t ∧
      (∀ l2 ∈ w.lock_list t,
        (thread_exit_locks w t).1.locks l2 = { owner := none, count := 0 }) ∧
      (thread_exit_locks w t).1.lock_list t = []) := by
  refine ⟨?_, ?_, ?_, ?_, ?_, ?_, ?_, ?_, ?_, ?_⟩
  · intro hinv w2 hok i
    rw [lock_acquire] at hok
    split_ifs at hok with h1 h2
    · cases hok
      by_cases hi : i = lid
      · subst hi
        simp [lock_inv, h1]
      · simpa [hi] using hinv i
    · cases hok
      by_cases hi : i = lid
      · subst hi
        simp [lock_inv]
      · simpa [hi] using hinv i
  · intro hinv i
    rw [lock_release]
    split_ifs with h1 h2
    · exact hinv i
    · by_cases hi : i = lid
      · subst hi
        simp only [if_pos rfl, lock_inv]
        push_neg at h1
        simp [h1]
        omega
      · simpa [hi] using hinv i
    · by_cases hi : i = lid
      · subst hi
        simp [lock_inv]
      · simpa [hi] using hinv i
  · intro hinv i
    rw [thread_exit_locks]
    exact force_release_inv _ _ hinv i
  · intro hno
    rw [lock_release, if_pos hno]
  · intro h0 hn
    exact acquire_iter_owns w t lid h0 n hn
  · intro h0 hn hk
    have hacq := acquire_iter_owns w t lid h0 n hn
    have hrel := release_iter_partial (acquire_iter w t lid n) t lid n hn hacq k (by omega)
    rw [if_pos hk] at hrel
    refine ⟨by rw [hrel], ?_⟩
    intro hu
    rw [lock_acquire, if_neg (by rw [hrel]; simp; omega), if_neg (by rw [hrel]; simp)]
  · intro h0 hn
    have hacq := acquire_iter_owns w t lid h0 n hn
    have hrel := release_iter_partial (acquire_iter w t lid n) t lid n hn hacq n (by omega)
    rw [if_neg (by omega)] at hrel
    refine ⟨hrel, ?_⟩
    intro w3 hok
    rw [lock_acquire] at hok
    split_ifs at hok with h1 h2
    · rw [hrel] at h1
      simp at h1
    · cases hok
      simp
  · rw [thread_exit_locks]
    exact force_release_broadcasts _ _
  · intro l2 hl2
    rw [thread_exit_locks]
    exact force_release_mem _ _ l2 hl2
  · rw [thread_exit_locks]
    simp

/-- C8 (witness): the recursion clause instantiated at three acquisitions and
one release by thread 1 on lock 0. -/
theorem lock_discipline_spec_witness :
    (lock_w0.locks 0 = { owner := none, count := 0 } ∧ 1 ≤ 3 ∧ 1 < 3) ∧
    ((release_iter (acquire_iter lock_w0 1 0 3) 1 0 1).locks 0).owner = some 1 := by
  refine ⟨⟨rfl, by decide, by decide⟩, ?_⟩
  exact ((lock_discipline_spec lock_w0 1 2 0 3 1).2.2.2.2.2.1 rfl (by decide) (by decide)).1

-- Best-fit lemmas -------------------------------------------------------------
lemma bf_aux_acc_le (cnt : Nat) :
    ∀ (l : List page_chunk) (idx j bsz i sz : Nat),
    best_fit_aux cnt l idx (some (j, bsz)) = some (i, sz) → sz ≤ bsz := by
  intro l
  induction l with
  | nil =>
    intro idx j bsz i sz h
    rw [best_fit_aux] at h
    simp at h
    omega
  | cons c rest ih =>
    intro idx j bsz i sz h
    rw [best_fit_aux] at h
    by_cases hb : better_fit cnt c (some (j, bsz))
    · rw [if_pos hb] at h
      have hlt : c.pagecnt < bsz := by
        simp [better_fit] at hb
        exact hb.2
      have := ih (idx + 1) idx c.pagecnt i sz h
      omega
    · rw [if_neg hb] at h
      exact ih (idx + 1) j bsz i sz h

lemma bf_aux_min (cnt : Nat) :
    ∀ (l : List page_chunk) (idx : Nat) (b : Option (Nat × Nat)) (i sz : Nat),
    best_fit_aux cnt l idx b = some (i, sz) →
    ∀ c2 ∈ l, cnt ≤ c2.pagecnt → sz ≤ c2.pagecnt := by
  intro l
  induction l with
  | nil =>
    intro idx b i sz _ c2 hmem
    simp at hmem
  | cons c rest ih =>
    intro idx b i sz h c2 hmem hcnt
    rw [best_fit_aux] at h
    rcases List.mem_cons.mp hmem with hc | hc
    · subst hc
      by_cases hb : better_fit cnt c2 b
      · rw [if_pos hb] at h
        exact bf_aux_acc_le cnt rest (idx + 1) idx c2.pagecnt i sz h
      · rw [if_neg hb] at h
        match b with
        | none =>
          exfalso
          apply hb
          simp [better_fit, hcnt]
        | some (j, bsz) =>
          have hge : bsz ≤ c2.pagecnt := by
            simp [better_fit, hcnt] at hb
            omega
          have := bf_aux_acc_le cnt rest (idx + 1) j bsz i sz h
          omega
    · exact ih (idx + 1) _ i sz h c2 hc hcnt

lemma bf_aux_mem (cnt : Nat) :
    ∀ (l : List page_chunk) (idx : Nat) (b : Option (Nat × Nat)) (i sz : Nat),
    best_fit_aux cnt l idx b = some (i, sz) →
    b = some (i, sz) ∨
      ∃ k c, l.get? k = some c ∧ i = idx + k ∧ c.pagecnt = sz ∧ cnt ≤ sz := by
  intro l
  induction l with
  | nil =>
    intro idx b i sz h
    rw [best_fit_aux] at h
    exact Or.inl h
  | cons c rest ih =>
    intro idx b i sz h
    rw [best_fit_aux] at h
    by_cases hb : better_fit cnt c b
    · rw [if_pos hb] at h
      rcases ih (idx + 1) _ i sz h with hacc | ⟨k, c2, hget, hi, hsz, hcnt⟩
      · right
        have h1 : i = idx ∧ c.pagecnt = sz := by
          simp at hacc
          omega
        refine ⟨0, c, by simp, by omega, h1.2, ?_⟩
        have : cnt ≤ c.pagecnt := by
          simp [better_fit] at hb
          exact hb.1
        omega
      · right
        exact ⟨k + 1, c2, by simpa using hget, by omega, hsz, hcnt⟩
    · rw [if_neg hb] at h
      rcases ih (idx + 1) b i sz h with hacc | ⟨k, c2, hget, hi, hsz, hcnt⟩
      · exact Or.inl hacc
      · right
        exact ⟨k + 1, c2, by simpa using hget, by omega, hsz, hcnt⟩

lemma chunks_total_eraseIdx :
    ∀ (l : List page_chunk) (i : Nat) (c : page_chunk), l.get? i = some c →
    chunks_total (l.eraseIdx i) + c.pagecnt = chunks_total l := by
  intro l
  induction l with
  | nil =>
    intro i c h
    simp at h
  | cons c0 rest ih =>
    intro i c h
    match i with
    | 0 =>
      have hc : c0 = c := Option.some.inj h
      subst hc
      simp [List.eraseIdx, chunks_total]
      omega
    | Nat.succ j =>
      have h2 : rest.get? j = some c := h
      have := ih j c h2
      simp [List.eraseIdx, chunks_total]
      omega

lemma chunks_total_set :
    ∀ (l : List page_chunk) (i : Nat) (c c2 : page_chunk), l.get? i = some c →
    chunks_total (l.set i c2) + c.pagecnt = chunks_total l + c2.pagecnt := by
  intro l
  induction l with
  | nil =>
    intro i c c2 h
    simp at h
  | cons c0 rest ih =>
    intro i c c2 h
    match i with
    | 0 =>
      have hc : c0 = c := Option.some.inj h
      subst hc
      simp [List.set, chunks_total]
      omega
    | Nat.succ j =>
      have h2 : rest.get? j = some c := h
      have := ih j c c2 h2
      simp [List.set, chunks_total]
      omega

lemma alloc_phys_pages_spec (l : List page_chunk) (cnt p : Nat) (l2 : List page_chunk)
    (h : alloc_phys_pages l cnt = some (p, l2)) :
    chunks_total l2 + cnt = chunks_total l ∧
    ∃ i c, l.get? i = some c ∧ p = c.first_ppn ∧ cnt ≤ c.pagecnt ∧
      (∀ c2 ∈ l, cnt ≤ c2.pagecnt → c.pagecnt ≤ c2.pagecnt) ∧
      l2 = (if c.pagecnt = cnt then l.eraseIdx i
            else l.set i { first_ppn := c.first_ppn + cnt, pagecnt := c.pagecnt - cnt }) := by
  rw [alloc_phys_pages] at h
  by_cases hz : cnt = 0
  · rw [if_pos hz] at h
    simp at h
  rw [if_neg hz] at h
  rcases hbf : best_fit_aux cnt l 0 none with _ | ⟨i, sz⟩
  · rw [hbf] at h
    have h2 : (none : Option (Nat × List page_chunk)) = some (p, l2) := h
    simp at h2
  rw [hbf] at h
  have h2 : (match l.get? i with
      | none => none
      | some c =>
          if c.pagecnt = cnt then some (c.first_ppn, l.eraseIdx i)
          else some (c.first_ppn,
            l.set i { first_ppn := c.first_ppn + cnt, pagecnt := c.pagecnt - cnt })) =
      some (p, l2) := h
  rcases hget : l.get? i with _ | c
  · rw [hget] at h2
    have h3 : (none : Option (Nat × List page_chunk)) = some (p, l2) := h2
    simp at h3
  rw [hget] at h2
  have h3 : (if c.pagecnt = cnt then some (c.first_ppn, l.eraseIdx i)
      else some (c.first_ppn,
        l.set i { first_ppn := c.first_ppn + cnt, pagecnt := c.pagecnt - cnt })) =
      some (p, l2) := h2
  have hmem := bf_aux_mem cnt l 0 none i sz hbf
  rcases hmem with hacc | ⟨k, c2, hget2, hik, hsz2, hcnt2⟩
  · simp at hacc
  have hki : k = i := by omega
  rw [hki] at hget2
  rw [hget] at hget2
  have hc2 : c2 = c := (Option.some.inj hget2).symm
  subst hc2
  have hmin := bf_aux_min cnt l 0 none i sz hbf
  have hszc : c2.pagecnt = sz := hsz2
  by_cases hexact : c2.pagecnt = cnt
  · rw [if_pos hexact] at h3
    have h4 := Option.some.inj h3
    rw [Prod.mk.injEq] at h4
    obtain ⟨hp1, hp2⟩ := h4
    constructor
    · rw [← hp2]
      have := chunks_total_eraseIdx l i c2 hget
      omega
    · refine ⟨i, c2, hget, hp1.symm, by omega, ?_, by rw [if_pos hexact]; exact hp2.symm⟩
      intro c3 hmem3 hcnt3
      have := hmin c3 hmem3 hcnt3
      omega
  · rw [if_neg hexact] at h3
    have h4 := Option.some.inj h3
    rw [Prod.mk.injEq] at h4
    obtain ⟨hp1, hp2⟩ := h4
    constructor
    · rw [← hp2]
      have := chunks_total_set l i c2
        { first_ppn := c2.first_ppn + cnt, pagecnt := c2.pagecnt - cnt } hget
      simp at this
      omega
    · refine ⟨i, c2, hget, hp1.symm, by omega, ?_, by rw [if_neg hexact]; exact hp2.symm⟩
      intro c3 hmem3 hcnt3
      have := hmin c3 hmem3 hcnt3
      omega

/-- C9: between allocator operations the free-list total equals the initial
pool minus the outstanding allocation count; a successful alloc_phys_pages(n)
removes exactly n pages from the smallest sufficient (best-fit) chunk, taking
the pages from its front; and free_phys_pages(p, n) of an allocated run adds
exactly n pages back at the head of the list. -/
theorem page_alloc_conservation (ppn0 pool : Nat) (s : pa_state)
    (l : List page_chunk) (cnt p : Nat) (l2 : List page_chunk) (pp cnt2 : Nat) :
    (pa_reach ppn0 pool s → chunks_total s.chunks + s.allocated = pool) ∧
    (alloc_phys_pages l cnt = some (p, l2) →
      chunks_total l2 + cnt = chunks_total l ∧
      ∃ i c, l.get? i = some c ∧ p = c.first_ppn ∧ cnt ≤ c.pagecnt ∧
        (∀ c2 ∈ l, cnt ≤ c2.pagecnt → c.pagecnt ≤ c2.pagecnt) ∧
        l2 = (if c.pagecnt = cnt then l.eraseIdx i
              else l.set i { first_ppn := c.first_ppn + cnt,
                             pagecnt := c.pagecnt - cnt })) ∧
    (pp ≠ 0 → cnt2 ≠ 0 →
      free_phys_pages l pp cnt2 = { first_ppn := pp, pagecnt := cnt2 } :: l ∧
      chunks_total (free_phys_pages l pp cnt2) = chunks_total l + cnt2) := by
  refine ⟨?_, ?_, ?_⟩
  · intro hreach
    induction hreach with
    | init => simp [chunks_total]
    | alloc s cnta pa l2a _ halloc ih =>
      have := (alloc_phys_pages_spec s.chunks cnta pa l2a halloc).1
      simp
      omega
    | free s ppa cnta _ hpp hcnt hle ih =>
      rw [free_phys_pages]
      rw [if_neg (by push_neg; exact ⟨hpp, hcnt⟩)]
      simp [chunks_total]
      omega
  · intro h
    exact alloc_phys_pages_spec l cnt p l2 h
  · intro hpp hcnt
    rw [free_phys_pages, if_neg (by push_neg; exact ⟨hpp, hcnt⟩)]
    simp [chunks_total]
    omega

/-- C9 (witness): allocating 2 pages from a list whose best fit is the exact
2-page chunk, and freeing them back. -/
theorem page_alloc_conservation_witness :
    (alloc_phys_pages [⟨100, 5⟩, ⟨200, 2⟩] 2 = some (200, [⟨100, 5⟩]) ∧
      (200 : Nat) ≠ 0 ∧ (2 : Nat) ≠ 0) ∧
    chunks_total [⟨100, 5⟩] + 2 = chunks_total [⟨100, 5⟩, ⟨200, 2⟩] ∧
    chunks_total (free_phys_pages [⟨100, 5⟩] 200 2) = chunks_total [⟨100, 5⟩] + 2 := by
  refine ⟨⟨by decide, by decide, by decide⟩, ?_, ?_⟩
  · exact ((page_alloc_conservation 0 0 ⟨[], 0⟩ [⟨100, 5⟩, ⟨200, 2⟩] 2 200 [⟨100, 5⟩]
      200 2).2.1 (by decide)).1
  · exact ((page_alloc_conservation 0 0 ⟨[], 0⟩ [⟨100, 5⟩] 2 200 [⟨100, 5⟩]
      200 2).2.2 (by decide) (by decide)).2

/-- C2 (counterexample): a user page fault at virtual address UMEM_END
(0x100000000) is serviced by on-demand mapping (the handler returns 1), not
terminated: the handler's bound is 0x400000000000 and canonicality, not
UMEM_END. -/
theorem pf_umem_end_not_terminated_cex :
    UMEM_END_VMA ≤ 0x100000000 ∧
    (handle_umode_page_fault st_pf 0x100000000).2 = 1 := by
  exact ⟨by decide, by decide⟩

/-- C2 (amended): the fault handler's boundary is canonicality and the
constant 0x400000000000, not UMEM_END.  A fault at a non-canonical address or
at or above 0x400000000000 terminates the process (handler returns 0 with the
state unchanged); every address below UMEM_END lies strictly inside the
handled region; and for any fault in the handled region for which a physical
page is available and the walk succeeds, the handler zero-fills the allocated
page, installs a leaf with MAP_RWUG|A|D|V at the faulting page, and resumes
(returns 1). -/
theorem pf_boundary_spec (st : mach_state) (vma p : Nat) (ch : List page_chunk) :
    ((¬ wellformed vma ∨ 0x400000000000 ≤ vma) →
      handle_umode_page_fault st vma = (st, 0)) ∧
    (vma < UMEM_END_VMA → wellformed vma = true ∧ vma < 0x400000000000) ∧
    (wellformed vma = true → vma < 0x400000000000 →
     alloc_phys_pages st.chunks 1 = some (p, ch) →
     ∀ stw l0p idx,
       walk_create { st with chunks := ch, ptmem := page_zero st.ptmem p }
           (vma / PAGE_SIZE * PAGE_SIZE) true = (stw, some (l0p, idx)) →
       handle_umode_page_fault st vma =
         ({ stw with ptmem := pt_write stw.ptmem l0p idx (leaf_pte p MAP_RWUG) }, 1) ∧
       pt_write stw.ptmem l0p idx (leaf_pte p MAP_RWUG) l0p idx =
         { flags := MAP_RWUG ||| PTE_A ||| PTE_D ||| PTE_V, ppn := p } ∧
       (∀ j, ({ st with chunks := ch, ptmem := page_zero st.ptmem p }).ptmem p j
          = null_pte)) := by
  refine ⟨?_, ?_, ?_⟩
  · intro h
    rw [handle_umode_page_fault, if_pos h]
  · intro hlow
    have hdiv : vma >>> 38 = vma / 2 ^ 38 := Nat.shiftRight_eq_div_pow vma 38
    constructor
    · rw [wellformed]
      have h0 : vma >>> 38 = 0 := by
        rw [hdiv]
        have : vma < 2 ^ 38 := by
          have := hlow
          rw [UMEM_END_VMA] at this
          omega
        omega
      simp [h0]
    · rw [UMEM_END_VMA] at hlow
      omega
  · intro hwf hbound halloc stw l0p idx hwalk
    have hcond : ¬ (¬ wellformed vma ∨ 0x400000000000 ≤ vma) := by
      push_neg
      exact ⟨by simp [hwf], by omega⟩
    have hvma38 : vma < 2 ^ 38 := by
      rw [wellformed] at hwf
      simp [Nat.shiftRight_eq_div_pow] at hwf
      rcases hwf with h38 | h38 <;> omega
    have hwfv : wellformed (vma / PAGE_SIZE * PAGE_SIZE) = true := by
      rw [wellformed]
      have hle : vma / PAGE_SIZE * PAGE_SIZE ≤ vma := Nat.div_mul_le_self vma PAGE_SIZE
      have h0 : (vma / PAGE_SIZE * PAGE_SIZE) >>> 38 = 0 := by
        rw [Nat.shiftRight_eq_div_pow]
        omega
      simp [h0]
    have hcond2 : ¬ (¬ wellformed (vma / PAGE_SIZE * PAGE_SIZE)
        ∨ p * PAGE_SIZE % PAGE_SIZE ≠ 0) := by
      push_neg
      refine ⟨by simp [hwfv], ?_⟩
      simp [PAGE_SIZE]
    have hpp : p * PAGE_SIZE / PAGE_SIZE = p := by
      simp [PAGE_SIZE]
    refine ⟨?_, ?_, ?_⟩
    · rw [handle_umode_page_fault, if_neg hcond]
      simp only [halloc]
      rw [map_page, if_neg hcond2]
      simp only [hwalk, hpp]
      norm_num
    · simp [pt_write, leaf_pte]
    · intro j
      simp [page_zero]

/-- C2 (witness): a fault at 0x2000 against the concrete state; the allocator
hands out page 10 and the walk allocates subtables from pages 11 and 12. -/
theorem pf_boundary_spec_witness :
    (wellformed 0x2000 = true ∧ (0x2000 : Nat) < 0x400000000000 ∧
      alloc_phys_pages st_pf.chunks 1 = some (10, [⟨11, 7⟩])) ∧
    (handle_umode_page_fault st_pf 0x2000).2 = 1 := by
  have hw2 : (walk_create st_pf1 (0x2000 / PAGE_SIZE * PAGE_SIZE) true).2
      = some (12, 2) := by decide
  obtain ⟨stw, hwalk⟩ : ∃ stw,
      walk_create st_pf1 (0x2000 / PAGE_SIZE * PAGE_SIZE) true
      = (stw, some (12, 2)) := by
    refine ⟨(walk_create st_pf1 (0x2000 / PAGE_SIZE * PAGE_SIZE) true).1, ?_⟩
    rw [← hw2]
  have happ := (pf_boundary_spec st_pf 0x2000 10 [⟨11, 7⟩]).2.2
    (by decide) (by decide) (by decide) stw 12 2 hwalk
  refine ⟨⟨by decide, by decide, by decide⟩, ?_⟩
  rw [happ.1]

/-- C3: for an aligned in-range one-block transfer that the device completes
with an OK status, the read path returns 512 (used_len 513 minus 1) but the
write path returns the raw used_len 1 instead of the 512 bytes transferred;
and a device error status (1) still yields the nonnegative count 1 on the
write path — no negative error is derived from the status byte. -/
theorem vioblk_count_mismatch :
    vioblk_readat dev512 0 512 (virtio_used_len_read 512) VIRTIO_BLK_S_OK = 512 ∧
    vioblk_writeat dev512 0 512 (virtio_used_len_write 512) VIRTIO_BLK_S_OK = 1 ∧
    (1 : Int) ≠ 512 ∧
    0 ≤ vioblk_writeat dev512 0 512 (virtio_used_len_write 512) 1 := by
  refine ⟨by decide, by decide, by decide, by decide⟩

/-- C4 (counterexample): a positional writeat on a KTFS file of size 4 at
pos 2 with len 5 silently truncates the transfer to 2 bytes (the old size is
kept; no SETEND is issued) instead of extending the file and writing all 5. -/
theorem ktfs_writeat_truncates_cex :
    ktfs_writeat_count 4 2 5 = 2 ∧ (2 : Int) ≠ 5 := by
  refine ⟨by decide, by decide⟩

/-- C4 (amended): the sequential write path (seekio_write) of an open KTFS
file whose range crosses end first extends the end via SETEND propagated to
the backing and then transfers all len bytes; the positional writeat path
(ktfs_writeat) instead rejects pos beyond size with -EINVAL and otherwise
truncates the transfer to the old size, never extending the file. -/
theorem seekio_write_extends_spec (s : seekio_state) (fsize : Nat) (len : Int)
    (size2 pos2 : Nat) (len2 : Int)
    (hblk : s.blksz = 1)
    (hlen : 0 < len) (hcross : (s.endpos - s.pos : Nat) < len.toNat)
    (hmax : s.pos + len.toNat ≤ ktfs_max_file_size) :
    (seekio_write s fsize len true =
      (len, { s with pos := s.pos + len.toNat, endpos := s.pos + len.toNat },
       s.pos + len.toNat)) ∧
    (size2 < pos2 → ktfs_writeat_count size2 pos2 len2 = -EINVAL) ∧
    (pos2 ≤ size2 → 0 ≤ len2 →
      ktfs_writeat_count size2 pos2 len2 = min len2 ((size2 - pos2 : Nat) : Int)) := by
  refine ⟨?_, ?_, ?_⟩
  · have hlen0 : ¬ len = 0 := by omega
    have hlenblk : ¬ len < (s.blksz : Int) := by
      rw [hblk]
      omega
    rw [seekio_write, if_neg hlen0, if_neg hlenblk]
    have hlen2 : len.toNat / s.blksz * s.blksz = len.toNat := by
      rw [hblk]
      simp
    simp only [hlen2]
    rw [if_pos hcross]
    have hse : set_file_size fsize (s.pos + len.toNat) true = (0, s.pos + len.toNat) := by
      rw [set_file_size, if_neg (by omega)]
      rw [if_neg (by simp)]
    simp only [hse]
    have hw : ktfs_writeat_count (s.pos + len.toNat) s.pos (len.toNat : Int) = len := by
      rw [ktfs_writeat_count]
      rw [if_neg (by omega), if_neg (by omega), if_neg (by omega), if_neg (by push_neg; omega)]
      omega
    simp only [hw]
    rw [if_neg (by omega)]
    have htn : len.toNat = len.toNat := rfl
    have hwtn : len.toNat = (len : Int).toNat := rfl
    simp
    omega
  · intro h
    rw [ktfs_writeat_count, if_pos h]
  · intro hp hl
    rw [ktfs_writeat_count, if_neg (by omega), if_neg (by omega)]
    by_cases h0 : len2 = 0
    · rw [if_pos h0]
      omega
    · rw [if_neg h0]
      split_ifs with h1
      · omega
      · omega

/-- C4 (witness): a stream write of 5 bytes at pos 2 on a file of size 4. -/
theorem seekio_write_extends_spec_witness :
    (({ pos := 2, endpos := 4, blksz := 1 } : seekio_state).blksz = 1 ∧
      (0 : Int) < 5 ∧ (4 - 2 : Nat) < (5 : Int).toNat) ∧
    seekio_write { pos := 2, endpos := 4, blksz := 1 } 4 5 true =
      (5, { pos := 7, endpos := 7, blksz := 1 }, 7) := by
  refine ⟨⟨rfl, by decide, by decide⟩, ?_⟩
  exact (seekio_write_extends_spec { pos := 2, endpos := 4, blksz := 1 } 4 5 0 0 0
    rfl (by decide) (by decide) (by decide)).1
